/-
  Verification of the broadcast_hub repository against its specification.

  Shallow embedding of the Go sources:
  - `msg` package: the `Message` envelope, status codes, and the CBOR
    transcoder (`CborTranscoder.Encode` / `Decode` / stream decoder).
  - `server` package: handle minting, the registry of sessions, the
    request handlers (`handleIdRequest`, `handleListRequest`,
    `handleRelayRequest`, `sendRelays`, `getClientIds`), the dispatcher
    and the sender's priority select.
  - `client` package: `GetClientId`, `ListOtherClients`, `RelayMessage`
    and the client dispatcher.

  Machine integers are modelled as `Nat` with explicit bounds or `% 2^w`
  where overflow matters; Go maps are modelled as association lists
  (the CBOR model fixes Go's nondeterministic map iteration order to
  ascending keys); fallible operations return `Option`.
-/
import Mathlib

namespace BroadcastHub

/-! ## Data model (Go package `msg`) -/

/-- `ClientId` is a Go `uint64`; values are kept below `2^64` by the
well-formedness predicates where it matters. -/
abbrev ClientId := Nat

/-- `Status` is a Go `int`; only non-negative codes are ever produced. -/
abbrev Status := Nat

def SUCCESS : Status := 0
def INVALID_ID : Status := 1
def NO_BUFFER : Status := 2
def CONNECTION_ERROR : Status := 3
def ENCODING_ERROR : Status := 4
def TIMEOUT : Status := 5
def TOO_LONG : Status := 6

/-- Protocol version; `MyVersion = 1`. -/
def MyVersion : Nat := 1

/-- `ClientStatusMap`: a Go `map[ClientId]Status`, modelled as an
association list. -/
abbrev ClientStatusMap := List (ClientId × Status)

structure IdentifyResponse where
  Id : ClientId
deriving DecidableEq, Repr

structure ListResponse where
  Others : List ClientId
deriving DecidableEq, Repr

structure RelayRequest where
  Dest : List ClientId
  Msg : List Nat
deriving DecidableEq, Repr

structure RelayResponse where
  Status : Status
  StatusMap : ClientStatusMap
deriving DecidableEq, Repr

structure RelayIndication where
  Src : ClientId
  Msg : List Nat
deriving DecidableEq, Repr

/-- The wire envelope (`msg.Message`). The Go nil-able pointers to the
seven command slots become `Option`s; `IdentifyRequest` and `ListRequest`
are empty structs, modelled by `Option Unit`. -/
structure Message where
  Version : Nat
  MessageId : Nat
  IdReq : Option Unit := none
  IdRes : Option IdentifyResponse := none
  ListReq : Option Unit := none
  ListRes : Option ListResponse := none
  RelayReq : Option RelayRequest := none
  RelayRes : Option RelayResponse := none
  RelayInd : Option RelayIndication := none
deriving DecidableEq, Repr

/-! ## CBOR encoding (fxamacker/cbor as used by `CborTranscoder`)

Bytes are `Nat`s below 256. `encBE k n` is the big-endian `k`-byte
encoding of `n`; `encHead major n` the CBOR head for major type `major`
with argument `n` (shortest form, as the Go library emits). -/

def encBE : Nat → Nat → List Nat
  | 0, _ => []
  | k + 1, n => n / 256 ^ k :: encBE k (n % 256 ^ k)

def encHead (major n : Nat) : List Nat :=
  if n < 24 then [32 * major + n]
  else if n < 2 ^ 8 then [32 * major + 24, n]
  else if n < 2 ^ 16 then (32 * major + 25) :: encBE 2 n
  else if n < 2 ^ 32 then (32 * major + 26) :: encBE 4 n
  else (32 * major + 27) :: encBE 8 n

/-- Unsigned integer (major type 0). -/
def encUInt (n : Nat) : List Nat := encHead 0 n

/-- Byte string (major type 2). -/
def encBytes (bs : List Nat) : List Nat := encHead 2 bs.length ++ bs

/-- Text string (major type 3); the key's UTF-8 bytes are given directly. -/
def encKey (k : List Nat) : List Nat := encHead 3 k.length ++ k

/-- Array of unsigned integers (major type 4). -/
def encUIntArray (l : List Nat) : List Nat :=
  encHead 4 l.length ++ (l.map encUInt).flatten

/-- The fixed text keys of the protocol, as UTF-8 bytes. -/
def kBhubver : List Nat := [0x62, 0x68, 0x75, 0x62, 0x76, 0x65, 0x72]
def kId : List Nat := [0x69, 0x64]
def kIr : List Nat := [0x69, 0x72]
def kIR : List Nat := [0x49, 0x52]
def kLr : List Nat := [0x6c, 0x72]
def kLR : List Nat := [0x4c, 0x52]
def kRr : List Nat := [0x72, 0x72]
def kRR : List Nat := [0x52, 0x52]
def kRI : List Nat := [0x52, 0x49]
def kO : List Nat := [0x6f]
def kDst : List Nat := [0x64, 0x73, 0x74]
def kMsg : List Nat := [0x6d, 0x73, 0x67]
def kSta : List Nat := [0x73, 0x74, 0x61]
def kCsm : List Nat := [0x63, 0x73, 0x6d]
def kSrc : List Nat := [0x73, 0x72, 0x63]
def kIdField : List Nat := [0x69, 0x64]

/-- Payload of an `IR` slot: the map `{id: handle}`. -/
def encIdRes (r : IdentifyResponse) : List Nat :=
  encHead 5 1 ++ encKey kIdField ++ encUInt r.Id

/-- Payload of an `LR` slot: the map `{o: [handles]}`. -/
def encListRes (r : ListResponse) : List Nat :=
  encHead 5 1 ++ encKey kO ++ encUIntArray r.Others

/-- Payload of an `rr` slot: the map `{dst: [handles], msg: bytes}`. -/
def encRelayReq (r : RelayRequest) : List Nat :=
  encHead 5 2 ++ encKey kDst ++ encUIntArray r.Dest ++ encKey kMsg ++ encBytes r.Msg

/-- Status-map entries, key then value, in list order (the model fixes
Go's unordered map iteration to the list's order). -/
def encSMapEntries (m : ClientStatusMap) : List Nat :=
  (m.map (fun p => encUInt p.1 ++ encUInt p.2)).flatten

/-- Payload of an `RR` slot: the map `{sta: status, csm: {handle: status}}`. -/
def encRelayRes (r : RelayResponse) : List Nat :=
  encHead 5 2 ++ encKey kSta ++ encUInt r.Status ++
    encKey kCsm ++ (encHead 5 r.StatusMap.length ++ encSMapEntries r.StatusMap)

/-- Payload of an `RI` slot: the map `{src: handle, msg: bytes}`. -/
def encRelayInd (r : RelayIndication) : List Nat :=
  encHead 5 2 ++ encKey kSrc ++ encUInt r.Src ++ encKey kMsg ++ encBytes r.Msg

/-- Encode an optional slot as a key/payload pair, or nothing. -/
def encSlot {α : Type} (k : List Nat) (enc : α → List Nat) : Option α → List Nat
  | none => []
  | some a => encKey k ++ enc a

/-- 1 if the slot is populated, 0 otherwise. -/
def sIf {α : Type} (o : Option α) : Nat := if o.isSome then 1 else 0

/-- Number of populated command slots of an envelope. -/
def slotCount (m : Message) : Nat :=
  sIf m.IdReq + (sIf m.IdRes + (sIf m.ListReq + (sIf m.ListRes +
    (sIf m.RelayReq + (sIf m.RelayRes + sIf m.RelayInd)))))

/-- `CborTranscoder.Encode`: the envelope as a CBOR map, fields in the
Go struct's order (`bhubver`, `id`, then the populated slots); empty
structs encode as the empty map `0xa0`. `cbor.Marshal` never fails on
this struct, so the Go `ok` result is always `true` and the model is
total. -/
def encodeMessage (m : Message) : List Nat :=
  encHead 5 (2 + slotCount m) ++
  encKey kBhubver ++ encUInt m.Version ++
  encKey kId ++ encUInt m.MessageId ++
  encSlot kIr (fun _ => encHead 5 0) m.IdReq ++
  encSlot kIR encIdRes m.IdRes ++
  encSlot kLr (fun _ => encHead 5 0) m.ListReq ++
  encSlot kLR encListRes m.ListRes ++
  encSlot kRr encRelayReq m.RelayReq ++
  encSlot kRR encRelayRes m.RelayRes ++
  encSlot kRI encRelayInd m.RelayInd

/-! ## CBOR decoding

`CborTranscoder.Decode` and the stream decoder call `cbor.Unmarshal` /
`cbor.Decoder.Decode`. The model below parses the canonical forms the
encoder emits (the Go library also tolerates reordered or unknown map
fields, a strictly larger accepted set; the round-trip and streaming
claims only concern the encoder's image, where the two agree). -/

/-- Read `k` big-endian bytes, accumulating onto `acc`. -/
def decBE : Nat → Nat → List Nat → Option (Nat × List Nat)
  | 0, acc, bs => some (acc, bs)
  | _ + 1, _, [] => none
  | k + 1, acc, b :: bs => decBE k (acc * 256 + b) bs

/-- Read one CBOR head: its major type and argument value. -/
def decHead : List Nat → Option (Nat × Nat × List Nat)
  | [] => none
  | b :: bs =>
    if b % 32 < 24 then some (b / 32, b % 32, bs)
    else if b % 32 = 24 then
      match bs with
      | b0 :: r => some (b / 32, b0, r)
      | [] => none
    else if b % 32 = 25 then (decBE 2 0 bs).map (fun p => (b / 32, p.1, p.2))
    else if b % 32 = 26 then (decBE 4 0 bs).map (fun p => (b / 32, p.1, p.2))
    else if b % 32 = 27 then (decBE 8 0 bs).map (fun p => (b / 32, p.1, p.2))
    else none

/-- Read a head and require a specific major type. -/
def decExpect (major : Nat) (bs : List Nat) : Option (Nat × List Nat) :=
  match decHead bs with
  | some (mj, n, r) => if mj = major then some (n, r) else none
  | none => none

/-- Unsigned integer. -/
def decUInt (bs : List Nat) : Option (Nat × List Nat) := decExpect 0 bs

/-- Take exactly `n` raw bytes. -/
def decTake (n : Nat) (bs : List Nat) : Option (List Nat × List Nat) :=
  if n ≤ bs.length then some (bs.take n, bs.drop n) else none

/-- Byte string. -/
def decBytes (bs : List Nat) : Option (List Nat × List Nat) := do
  let (n, r) ← decExpect 2 bs
  decTake n r

/-- Text string (as raw bytes). -/
def decKey (bs : List Nat) : Option (List Nat × List Nat) := do
  let (n, r) ← decExpect 3 bs
  decTake n r

/-- Text string required to be a specific key. -/
def decKeyExact (k : List Nat) (bs : List Nat) : Option (List Nat) := do
  let (kb, r) ← decKey bs
  if kb = k then some r else none

/-- `n` unsigned integers in sequence. -/
def decUIntList : Nat → List Nat → Option (List Nat × List Nat)
  | 0, bs => some ([], bs)
  | n + 1, bs => do
    let (v, r) ← decUInt bs
    let (l, r') ← decUIntList n r
    some (v :: l, r')

/-- Array of unsigned integers. -/
def decUIntArray (bs : List Nat) : Option (List Nat × List Nat) := do
  let (n, r) ← decExpect 4 bs
  decUIntList n r

/-- `n` key/value pairs of unsigned integers (a `ClientStatusMap`). -/
def decSMapPairs : Nat → List Nat → Option (ClientStatusMap × List Nat)
  | 0, bs => some ([], bs)
  | n + 1, bs => do
    let (k, r) ← decUInt bs
    let (v, r') ← decUInt r
    let (l, r'') ← decSMapPairs n r'
    some ((k, v) :: l, r'')

/-- Empty map (payload of `ir` and `lr`). -/
def decEmptyMap (bs : List Nat) : Option (Unit × List Nat) := do
  let (n, r) ← decExpect 5 bs
  if n = 0 then some ((), r) else none

/-- Payload of `IR`. -/
def decIdRes (bs : List Nat) : Option (IdentifyResponse × List Nat) := do
  let (n, r) ← decExpect 5 bs
  if n = 1 then do
    let r ← decKeyExact kIdField r
    let (v, r') ← decUInt r
    some (⟨v⟩, r')
  else none

/-- Payload of `LR`. -/
def decListRes (bs : List Nat) : Option (ListResponse × List Nat) := do
  let (n, r) ← decExpect 5 bs
  if n = 1 then do
    let r ← decKeyExact kO r
    let (l, r') ← decUIntArray r
    some (⟨l⟩, r')
  else none

/-- Payload of `rr`. -/
def decRelayReq (bs : List Nat) : Option (RelayRequest × List Nat) := do
  let (n, r) ← decExpect 5 bs
  if n = 2 then do
    let r ← decKeyExact kDst r
    let (d, r) ← decUIntArray r
    let r ← decKeyExact kMsg r
    let (p, r) ← decBytes r
    some (⟨d, p⟩, r)
  else none

/-- Payload of `RR`. -/
def decRelayRes (bs : List Nat) : Option (RelayResponse × List Nat) := do
  let (n, r) ← decExpect 5 bs
  if n = 2 then do
    let r ← decKeyExact kSta r
    let (st, r) ← decUInt r
    let r ← decKeyExact kCsm r
    let (cnt, r) ← decExpect 5 r
    let (sm, r) ← decSMapPairs cnt r
    some (⟨st, sm⟩, r)
  else none

/-- Payload of `RI`. -/
def decRelayInd (bs : List Nat) : Option (RelayIndication × List Nat) := do
  let (n, r) ← decExpect 5 bs
  if n = 2 then do
    let r ← decKeyExact kSrc r
    let (s, r) ← decUInt r
    let r ← decKeyExact kMsg r
    let (p, r) ← decBytes r
    some (⟨s, p⟩, r)
  else none

/-- Decode one envelope field given its key, updating the partial message. -/
def decodeField (m : Message) (key : List Nat) (bs : List Nat) :
    Option (Message × List Nat) :=
  if key = kBhubver then (decUInt bs).map (fun p => ({ m with Version := p.1 }, p.2))
  else if key = kId then
    (decUInt bs).bind (fun p =>
      if p.1 < 2 ^ 32 then some ({ m with MessageId := p.1 }, p.2) else none)
  else if key = kIr then (decEmptyMap bs).map (fun p => ({ m with IdReq := some () }, p.2))
  else if key = kIR then (decIdRes bs).map (fun p => ({ m with IdRes := some p.1 }, p.2))
  else if key = kLr then (decEmptyMap bs).map (fun p => ({ m with ListReq := some () }, p.2))
  else if key = kLR then (decListRes bs).map (fun p => ({ m with ListRes := some p.1 }, p.2))
  else if key = kRr then (decRelayReq bs).map (fun p => ({ m with RelayReq := some p.1 }, p.2))
  else if key = kRR then (decRelayRes bs).map (fun p => ({ m with RelayRes := some p.1 }, p.2))
  else if key = kRI then (decRelayInd bs).map (fun p => ({ m with RelayInd := some p.1 }, p.2))
  else none

/-- Decode `n` envelope key/value pairs. -/
def decodePairs : Nat → Message → List Nat → Option (Message × List Nat)
  | 0, m, bs => some (m, bs)
  | n + 1, m, bs => do
    let (key, r) ← decKey bs
    let (m', r') ← decodeField m key r
    decodePairs n m' r'

/-- The all-empty partial envelope decoding starts from. -/
def emptyMessage : Message := { Version := 0, MessageId := 0 }

/-- Decode one envelope from the front of a byte stream, returning the
unconsumed tail (the framing used by the stream decoder's `DecodeNext`). -/
def decodeMessage (bs : List Nat) : Option (Message × List Nat) := do
  let (cnt, r) ← decExpect 5 bs
  decodePairs cnt emptyMessage r

/-- `CborTranscoder.Decode`: decode a complete byte slice
(`cbor.Unmarshal` rejects trailing data). -/
def Decode (bs : List Nat) : Option Message :=
  match decodeMessage bs with
  | some (m, []) => some m
  | _ => none

/-- The stream decoder driven to exhaustion: the sequence of messages
successive `DecodeNext` calls yield with `ok = true` before the decoder
fails (each decoded envelope consumes at least one byte, so `bs.length`
bounds the number of messages). -/
def decodeStreamFuel : Nat → List Nat → List Message
  | 0, _ => []
  | f + 1, bs =>
    match decodeMessage bs with
    | some (m, rest) => m :: decodeStreamFuel f rest
    | none => []

def decodeStream (bs : List Nat) : List Message := decodeStreamFuel bs.length bs

/-! ## Well-formed envelopes

Bounds that every envelope built from the Go types satisfies: machine
integer ranges (`uint64` handles, `uint32` message ids, bytes) and
finite (sub-`2^64`) slice and map sizes. -/

def wfStatusMap (sm : ClientStatusMap) : Prop :=
  sm.length < 2 ^ 64 ∧ ∀ p ∈ sm, p.1 < 2 ^ 64 ∧ p.2 < 2 ^ 64

def wellFormed (m : Message) : Prop :=
  m.Version < 2 ^ 64 ∧ m.MessageId < 2 ^ 32 ∧
  (∀ r ∈ m.IdRes, r.Id < 2 ^ 64) ∧
  (∀ r ∈ m.ListRes, r.Others.length < 2 ^ 64 ∧ ∀ c ∈ r.Others, c < 2 ^ 64) ∧
  (∀ r ∈ m.RelayReq, r.Dest.length < 2 ^ 64 ∧ (∀ c ∈ r.Dest, c < 2 ^ 64) ∧
    r.Msg.length < 2 ^ 64 ∧ ∀ b ∈ r.Msg, b < 256) ∧
  (∀ r ∈ m.RelayRes, r.Status < 2 ^ 64 ∧ wfStatusMap r.StatusMap) ∧
  (∀ r ∈ m.RelayInd, r.Src < 2 ^ 64 ∧ r.Msg.length < 2 ^ 64 ∧ ∀ b ∈ r.Msg, b < 256)


/-! ## Server model (Go package `server`)

A session is modelled by its client id and the contents of its buffered
`relayMsgs` channel (capacity `maxBufferedMessages`); the registry
(`Server.clients`) is an association list over distinct client ids. -/

/-- Maximum buffered messages per destination (`maxBufferedMessages`). -/
def maxBufferedMessages : Nat := 3

/-- The registry: client id ↦ queued relay indications of its session. -/
abbrev Registry := List (ClientId × List RelayIndication)

/-- Go map read `s.clients[cid]`, restricted to the indication queue. -/
def regLookup : Registry → ClientId → Option (List RelayIndication)
  | [], _ => none
  | p :: tl, c => if p.1 = c then some p.2 else regLookup tl c

/-- Successful nonblocking send `dest_chan <- ind`: the indication is
buffered on the destination's channel. -/
def regEnqueue (reg : Registry) (c : ClientId) (ind : RelayIndication) : Registry :=
  reg.map (fun p => if p.1 = c then (p.1, p.2 ++ [ind]) else p)

/-- Go map assignment `statusMap[cid] = s`: replace or append. -/
def smInsert : ClientStatusMap → ClientId → Status → ClientStatusMap
  | [], c, s => [(c, s)]
  | p :: tl, c, s => if p.1 = c then (c, s) :: tl else p :: smInsert tl c s

/-- Go map read `statusMap[cid]`. -/
def smLookup : ClientStatusMap → ClientId → Option Status
  | [], _ => none
  | p :: tl, c => if p.1 = c then some p.2 else smLookup tl c

/-- One iteration of the `sendRelays` loop body for destination `cid`:
absent destination records `INVALID_ID`; full queue records `NO_BUFFER`;
otherwise the indication is enqueued and nothing is recorded. -/
def relayStep (ind : RelayIndication) (acc : ClientStatusMap × Registry)
    (cid : ClientId) : ClientStatusMap × Registry :=
  match regLookup acc.2 cid with
  | none => (smInsert acc.1 cid INVALID_ID, acc.2)
  | some q =>
    if q.length < maxBufferedMessages then (acc.1, regEnqueue acc.2 cid ind)
    else (smInsert acc.1 cid NO_BUFFER, acc.2)

/-- `sendRelays`: forward the relay to each destination in order,
accumulating the status map; returns the map and the updated queues. -/
def sendRelays (reg : Registry) (src : ClientId) (rr : RelayRequest) :
    ClientStatusMap × Registry :=
  rr.Dest.foldl (relayStep ⟨src, rr.Msg⟩) ([], reg)

/-- `handleRelayRequest`: size limits first, otherwise the fan-out;
the composed relay response is enqueued on the session's response queue
(returned here together with the updated registry). -/
def handleRelayRequest (reg : Registry) (scCid : ClientId) (mesg : Message)
    (rr : RelayRequest) : Message × Registry :=
  if rr.Dest.length > 255 ∨ rr.Msg.length > 1024 then
    ({ Version := MyVersion, MessageId := mesg.MessageId,
       RelayRes := some ⟨TOO_LONG, []⟩ }, reg)
  else
    let pr := sendRelays reg scCid rr
    ({ Version := MyVersion, MessageId := mesg.MessageId,
       RelayRes := some ⟨SUCCESS, pr.1⟩ }, pr.2)

/-- `handleIdRequest`: identify response carrying the session's handle. -/
def handleIdRequest (scCid : ClientId) (mesg : Message) : Message :=
  { Version := MyVersion, MessageId := mesg.MessageId, IdRes := some ⟨scCid⟩ }

/-- `getClientIds`: Go allocates `make([]ClientId, len(clients)-1)` and
writes every key other than `except` into it in sequence. `none` models a
panic: the `len(clients)-1` allocation with an empty map, or an
out-of-bounds write when `except` is not a key. Unwritten tail slots
keep their zero value. -/
def getClientIds (keys : List ClientId) (except : ClientId) :
    Option (List ClientId) :=
  if keys.length = 0 then none
  else
    let written := keys.filter (fun k => k ≠ except)
    if keys.length - 1 < written.length then none
    else some (written ++ List.replicate (keys.length - 1 - written.length) 0)

/-- `handleListRequest`: snapshot of the registry's other handles. -/
def handleListRequest (reg : Registry) (scCid : ClientId) (mesg : Message) :
    Option Message :=
  (getClientIds (reg.map Prod.fst) scCid).map (fun l =>
    { Version := MyVersion, MessageId := mesg.MessageId, ListRes := some ⟨l⟩ })

/-- The hub receiver's dispatch of one decoded envelope
(`Server.startDispatcher`): each of the three request slots present is
handled, independently and in order. `none` models a panic inside
`getClientIds`. -/
def hubHandleEnvelope (reg : Registry) (scCid : ClientId) (mesg : Message) :
    Option (List Message × Registry) :=
  let r1 : List Message :=
    match mesg.IdReq with
    | some _ => [handleIdRequest scCid mesg]
    | none => []
  let r2o : Option (List Message) :=
    match mesg.ListReq with
    | some _ => (handleListRequest reg scCid mesg).map (fun rsp => [rsp])
    | none => some []
  match r2o with
  | none => none
  | some r2 =>
    let pr : List Message × Registry :=
      match mesg.RelayReq with
      | some rr =>
        let hr := handleRelayRequest reg scCid mesg rr
        ([hr.1], hr.2)
      | none => ([], reg)
    some (r1 ++ r2 ++ pr.1, pr.2)

/-- `atomic.AddUint64(&s.cid, 1)` on the handle counter. -/
def mintHandle (counter : Nat) : ClientId × Nat :=
  ((counter + 1) % 2 ^ 64, (counter + 1) % 2 ^ 64)

/-- Handles produced by `n` successive `AddClientByConnection` calls
starting from counter value `counter` (a fresh server starts at 0). -/
def mintFrom (counter : Nat) : Nat → List ClientId
  | 0 => []
  | n + 1 => (mintHandle counter).1 :: mintFrom (mintHandle counter).2 n

def mintSeq (n : Nat) : List ClientId := mintFrom 0 n

/-- One iteration of the sender's nested select
(`Server.startSender`). `resp1`: the response, if any, immediately
available at the outer select; `resp2`/`indi`: what is available when
the inner blocking select fires; `pickResp`: Go's uniformly random
choice when both inner cases are ready simultaneously. `none` means the
iteration is still blocked. -/
inductive SenderTaken where
  | response (m : Message)
  | indication (r : RelayIndication)
deriving DecidableEq, Repr

def senderSelect (resp1 resp2 : Option Message) (indi : Option RelayIndication)
    (pickResp : Bool) : Option SenderTaken :=
  match resp1 with
  | some m => some (.response m)
  | none =>
    match resp2, indi with
    | some m, some r =>
      if pickResp then some (.response m) else some (.indication r)
    | some m, none => some (.response m)
    | none, some r => some (.indication r)
    | none, none => none

/-! ## Client model (Go package `client`) -/

/-- The client dispatcher's action on one decoded envelope
(`Client.startDispatcher`): an envelope with a relay indication is
published on the `Relays` channel, any other envelope is offered to the
waiter registered under its message id. -/
structure ClientDispatchAction where
  publishInd : Option RelayIndication
  deliverToWaiter : Option Message
deriving DecidableEq, Repr

def clientDispatch (mesg : Message) : ClientDispatchAction :=
  match mesg.RelayInd with
  | some ri => ⟨some ri, none⟩
  | none => ⟨none, some mesg⟩

/-- What the response channel does for a pending request: deliver a
message, be closed (connection lost), or stay silent past the 5-second
deadline. -/
inductive RecvEvent where
  | delivered (m : Message)
  | closed
  | timeout
deriving DecidableEq, Repr

/-- `Client.sendMessage`: encode, then write; `encOk` is the encoder's
`ok`, `writeOk` is `err == nil && n == len(encoded)`. -/
def clientSendMessage (encOk writeOk : Bool) : Status :=
  if ¬ encOk then ENCODING_ERROR
  else if ¬ writeOk then CONNECTION_ERROR
  else SUCCESS

/-- `Client.GetClientId` outcome as a function of the transport events. -/
def GetClientId (encOk writeOk : Bool) (ev : RecvEvent) : ClientId × Status :=
  let st := clientSendMessage encOk writeOk
  if st ≠ SUCCESS then (0, st)
  else
    match ev with
    | .closed => (0, CONNECTION_ERROR)
    | .timeout => (0, TIMEOUT)
    | .delivered rsp =>
      match rsp.IdRes with
      | none => (0, ENCODING_ERROR)
      | some r => (r.Id, SUCCESS)

/-- `Client.ListOtherClients` outcome. -/
def ListOtherClients (encOk writeOk : Bool) (ev : RecvEvent) :
    List ClientId × Status :=
  let st := clientSendMessage encOk writeOk
  if st ≠ SUCCESS then ([], st)
  else
    match ev with
    | .closed => ([], CONNECTION_ERROR)
    | .timeout => ([], TIMEOUT)
    | .delivered rsp =>
      match rsp.ListRes with
      | none => ([], ENCODING_ERROR)
      | some r => (r.Others, SUCCESS)

/-- Observable outcome of one `Client.RelayMessage` call: the returned
status map and status, the request written to the connection (if the
write stage was reached with a successful encode), and whether a waiter
was registered in `mid_map` during the call. -/
structure RelayCall where
  statusMap : ClientStatusMap
  status : Status
  sentRequest : Option Message
  waiterRegistered : Bool
deriving DecidableEq, Repr

/-- `Client.RelayMessage`: local size check strictly before any message
construction, waiter registration or write. -/
def RelayMessage (mid : Nat) (message : List Nat) (clients : List ClientId)
    (encOk writeOk : Bool) (ev : RecvEvent) : RelayCall :=
  if message.length > 1024 ∨ clients.length > 255 then
    ⟨[], TOO_LONG, none, false⟩
  else
    let req : Message := { Version := MyVersion, MessageId := mid,
                           RelayReq := some ⟨clients, message⟩ }
    if ¬ encOk then ⟨[], ENCODING_ERROR, none, true⟩
    else if ¬ writeOk then ⟨[], CONNECTION_ERROR, some req, true⟩
    else
      match ev with
      | .closed => ⟨[], CONNECTION_ERROR, some req, true⟩
      | .timeout => ⟨[], TIMEOUT, some req, true⟩
      | .delivered rsp =>
        match rsp.RelayRes with
        | none => ⟨[], ENCODING_ERROR, some req, true⟩
        | some rr => ⟨rr.StatusMap, rr.Status, some req, true⟩

/-- The statuses of the protocol's taxonomy. -/
def definedStatuses : List Status :=
  [SUCCESS, INVALID_ID, NO_BUFFER, CONNECTION_ERROR, ENCODING_ERROR, TIMEOUT,
   TOO_LONG]


/-! ## Round-trip lemmas for the codec -/

theorem decBE_encBE (k : Nat) : ∀ acc n rest, n < 256 ^ k →
    decBE k acc (encBE k n ++ rest) = some (acc * 256 ^ k + n, rest) := by
  induction k with
  | zero =>
    intro acc n rest h
    have hn : n = 0 := by omega
    subst hn
    simp [encBE, decBE]
  | succ k ih =>
    intro acc n rest h
    show decBE (k + 1) acc ((n / 256 ^ k :: encBE k (n % 256 ^ k)) ++ rest) = _
    rw [List.cons_append]
    show decBE k (acc * 256 + n / 256 ^ k) (encBE k (n % 256 ^ k) ++ rest) = _
    rw [ih _ _ _ (Nat.mod_lt _ (by positivity))]
    have hmod := Nat.div_add_mod n (256 ^ k)
    have hexp : (acc * 256 + n / 256 ^ k) * 256 ^ k =
        acc * 256 ^ (k + 1) + 256 ^ k * (n / 256 ^ k) := by ring
    have : (acc * 256 + n / 256 ^ k) * 256 ^ k + n % 256 ^ k =
        acc * 256 ^ (k + 1) + n := by
      rw [hexp]
      omega
    rw [this]

theorem decHead_encHead (major n : Nat) (rest : List Nat)
    (hm : major < 8) (hn : n < 2 ^ 64) :
    decHead (encHead major n ++ rest) = some (major, n, rest) := by
  unfold encHead
  split_ifs with hn1 hn2 hn3 hn4
  · have h1 : (32 * major + n) / 32 = major := by omega
    have h2 : (32 * major + n) % 32 = n := by omega
    simp [decHead, h1, h2, hn1]
  · have h1 : (32 * major + 24) / 32 = major := by omega
    have h2 : (32 * major + 24) % 32 = 24 := by omega
    simp [decHead, h1, h2]
  · have h1 : (32 * major + 25) / 32 = major := by omega
    have h2 : (32 * major + 25) % 32 = 25 := by omega
    have h3 := decBE_encBE 2 0 n rest (by omega)
    simp [decHead, h1, h2, h3]
  · have h1 : (32 * major + 26) / 32 = major := by omega
    have h2 : (32 * major + 26) % 32 = 26 := by omega
    have h3 := decBE_encBE 4 0 n rest (by omega)
    simp [decHead, h1, h2, h3]
  · have h1 : (32 * major + 27) / 32 = major := by omega
    have h2 : (32 * major + 27) % 32 = 27 := by omega
    have h3 := decBE_encBE 8 0 n rest (by omega)
    simp [decHead, h1, h2, h3]

theorem decExpect_encHead (major n : Nat) (rest : List Nat)
    (hm : major < 8) (hn : n < 2 ^ 64) :
    decExpect major (encHead major n ++ rest) = some (n, rest) := by
  simp [decExpect, decHead_encHead major n rest hm hn]

theorem decUInt_encUInt (n : Nat) (rest : List Nat) (hn : n < 2 ^ 64) :
    decUInt (encUInt n ++ rest) = some (n, rest) :=
  decExpect_encHead 0 n rest (by omega) hn

theorem decTake_append (l rest : List Nat) :
    decTake l.length (l ++ rest) = some (l, rest) := by
  simp [decTake]

theorem decBytes_encBytes (bs rest : List Nat) (h : bs.length < 2 ^ 64) :
    decBytes (encBytes bs ++ rest) = some (bs, rest) := by
  simp only [decBytes, encBytes, List.append_assoc]
  rw [decExpect_encHead 2 bs.length (bs ++ rest) (by omega) h]
  simpa using decTake_append bs rest

theorem decKey_encKey (k rest : List Nat) (h : k.length < 2 ^ 64) :
    decKey (encKey k ++ rest) = some (k, rest) := by
  simp only [decKey, encKey, List.append_assoc]
  rw [decExpect_encHead 3 k.length (k ++ rest) (by omega) h]
  simpa using decTake_append k rest

theorem decKeyExact_encKey (k rest : List Nat) (h : k.length < 2 ^ 64) :
    decKeyExact k (encKey k ++ rest) = some rest := by
  simp [decKeyExact, decKey_encKey k rest h]

theorem decUIntList_enc (l : List Nat) : ∀ rest, (∀ c ∈ l, c < 2 ^ 64) →
    decUIntList l.length ((l.map encUInt).flatten ++ rest) = some (l, rest) := by
  induction l with
  | nil => intro rest _; simp [decUIntList]
  | cons c tl ih =>
    intro rest hb
    have hc := hb c (by simp)
    have htl := ih rest (fun x hx => hb x (by simp [hx]))
    simp only [List.map_cons, List.flatten_cons, List.length_cons, List.append_assoc,
      decUIntList]
    rw [decUInt_encUInt c _ hc]
    simp [htl]

theorem decUIntArray_enc (l rest : List Nat) (hl : l.length < 2 ^ 64)
    (hb : ∀ c ∈ l, c < 2 ^ 64) :
    decUIntArray (encUIntArray l ++ rest) = some (l, rest) := by
  simp only [decUIntArray, encUIntArray, List.append_assoc]
  rw [decExpect_encHead 4 l.length _ (by omega) hl]
  simpa using decUIntList_enc l rest hb

theorem decSMapPairs_enc (sm : ClientStatusMap) : ∀ rest,
    (∀ p ∈ sm, p.1 < 2 ^ 64 ∧ p.2 < 2 ^ 64) →
    decSMapPairs sm.length (encSMapEntries sm ++ rest) = some (sm, rest) := by
  induction sm with
  | nil => intro rest _; simp [decSMapPairs, encSMapEntries]
  | cons p tl ih =>
    intro rest hb
    obtain ⟨h1, h2⟩ := hb p (by simp)
    have htl := ih rest (fun x hx => hb x (by simp [hx]))
    simp only [encSMapEntries, List.map_cons, List.flatten_cons, List.length_cons,
      List.append_assoc, decSMapPairs]
    rw [decUInt_encUInt p.1 _ h1]
    have step2 : decUInt (encUInt p.2 ++
        ((tl.map (fun q => encUInt q.1 ++ encUInt q.2)).flatten ++ rest)) =
        some (p.2, (tl.map (fun q => encUInt q.1 ++ encUInt q.2)).flatten ++ rest) :=
      decUInt_encUInt p.2 _ h2
    have step3 : decSMapPairs tl.length
        ((tl.map (fun q => encUInt q.1 ++ encUInt q.2)).flatten ++ rest) =
        some (tl, rest) := htl
    simp [step2, step3]

theorem decEmptyMap_enc (rest : List Nat) :
    decEmptyMap (encHead 5 0 ++ rest) = some ((), rest) := by
  have e := decExpect_encHead 5 0 rest (by omega) (by omega)
  simp [decEmptyMap, e]

theorem decIdRes_enc (r : IdentifyResponse) (rest : List Nat) (h : r.Id < 2 ^ 64) :
    decIdRes (encIdRes r ++ rest) = some (r, rest) := by
  obtain ⟨i⟩ := r
  simp only at h
  simp only [decIdRes, encIdRes, List.append_assoc]
  rw [decExpect_encHead 5 1 _ (by omega) (by omega)]
  simp (disch := first | assumption | omega | decide)
    [decKeyExact_encKey, decUInt_encUInt]

theorem decListRes_enc (r : ListResponse) (rest : List Nat)
    (hl : r.Others.length < 2 ^ 64) (hb : ∀ c ∈ r.Others, c < 2 ^ 64) :
    decListRes (encListRes r ++ rest) = some (r, rest) := by
  obtain ⟨l⟩ := r
  simp only at hl hb
  simp only [decListRes, encListRes, List.append_assoc]
  rw [decExpect_encHead 5 1 _ (by omega) (by omega)]
  simp (disch := first | assumption | omega | decide)
    [decKeyExact_encKey, decUIntArray_enc]

theorem decRelayReq_enc (r : RelayRequest) (rest : List Nat)
    (hd : r.Dest.length < 2 ^ 64) (hdb : ∀ c ∈ r.Dest, c < 2 ^ 64)
    (hml : r.Msg.length < 2 ^ 64) :
    decRelayReq (encRelayReq r ++ rest) = some (r, rest) := by
  obtain ⟨dst, msgb⟩ := r
  simp only at hd hdb hml
  simp only [decRelayReq, encRelayReq, List.append_assoc]
  rw [decExpect_encHead 5 2 _ (by omega) (by omega)]
  simp (disch := first | assumption | omega | decide)
    [decKeyExact_encKey, decUIntArray_enc, decBytes_encBytes]

theorem decRelayRes_enc (r : RelayResponse) (rest : List Nat)
    (hs : r.Status < 2 ^ 64) (hm : wfStatusMap r.StatusMap) :
    decRelayRes (encRelayRes r ++ rest) = some (r, rest) := by
  obtain ⟨st, sm⟩ := r
  obtain ⟨hml, hmb⟩ := hm
  simp only at hs hml hmb
  simp only [decRelayRes, encRelayRes, List.append_assoc]
  rw [decExpect_encHead 5 2 _ (by omega) (by omega)]
  have hcnt := fun t => decExpect_encHead 5 sm.length t (by omega) hml
  have hsm := decSMapPairs_enc sm rest hmb
  simp (disch := first | assumption | omega | decide)
    [decKeyExact_encKey, decUInt_encUInt, hcnt, hsm]

theorem decRelayInd_enc (r : RelayIndication) (rest : List Nat)
    (hs : r.Src < 2 ^ 64) (hml : r.Msg.length < 2 ^ 64) :
    decRelayInd (encRelayInd r ++ rest) = some (r, rest) := by
  obtain ⟨src, msgb⟩ := r
  simp only at hs hml
  simp only [decRelayInd, encRelayInd, List.append_assoc]
  rw [decExpect_encHead 5 2 _ (by omega) (by omega)]
  simp (disch := first | assumption | omega | decide)
    [decKeyExact_encKey, decUInt_encUInt, decBytes_encBytes]

theorem decodePairs_succ (n : Nat) (m : Message) (bs : List Nat) :
    decodePairs (n + 1) m bs =
    Bind.bind (decKey bs) (fun p =>
      Bind.bind (decodeField m p.1 p.2) (fun q => decodePairs n q.1 q.2)) := rfl

theorem optionBindSome {α β : Type} (a : α) (f : α → Option β) :
    Bind.bind (some a) f = f a := rfl

theorem dpBhubver (n : Nat) (m : Message) (v : Nat) (rest : List Nat)
    (hv : v < 2 ^ 64) :
    decodePairs (n + 1) m (encKey kBhubver ++ (encUInt v ++ rest)) =
    decodePairs n { m with Version := v } rest := by
  rw [decodePairs_succ, decKey_encKey kBhubver _ (by decide), optionBindSome]
  simp (disch := first | assumption | omega | decide) [decodeField, decUInt_encUInt]

theorem dpId (n : Nat) (m : Message) (v : Nat) (rest : List Nat)
    (hv : v < 2 ^ 32) :
    decodePairs (n + 1) m (encKey kId ++ (encUInt v ++ rest)) =
    decodePairs n { m with MessageId := v } rest := by
  have hv64 : v < 2 ^ 64 := by omega
  have hv32 : v < 4294967296 := hv
  rw [decodePairs_succ, decKey_encKey kId _ (by decide), optionBindSome]
  simp (disch := first | assumption | omega | decide)
    [decodeField, decUInt_encUInt, kId, kBhubver, hv32]

theorem dpSlotIdReq (n : Nat) (m : Message) (o : Option Unit)
    (rest : List Nat) (hm : m.IdReq = none) :
    decodePairs (sIf o + n) m (encSlot kIr (fun _ => encHead 5 0) o ++ rest) =
    decodePairs n { m with IdReq := o } rest := by
  cases o with
  | none =>
    have hmm : ({ m with IdReq := none } : Message) = m := by rw [← hm]
    simp [sIf, encSlot, hmm]
  | some a =>
    have hcnt : sIf (some a) + n = n + 1 := by simp [sIf]; omega
    rw [hcnt]
    simp only [encSlot, List.append_assoc]
    rw [decodePairs_succ, decKey_encKey kIr _ (by decide), optionBindSome]
    simp (disch := first | assumption | omega | decide)
      [decodeField, decEmptyMap_enc, kIr, kBhubver, kId]

theorem dpSlotIdRes (n : Nat) (m : Message) (o : Option IdentifyResponse)
    (rest : List Nat) (hm : m.IdRes = none) (hb : ∀ r ∈ o, r.Id < 2 ^ 64) :
    decodePairs (sIf o + n) m (encSlot kIR encIdRes o ++ rest) =
    decodePairs n { m with IdRes := o } rest := by
  cases o with
  | none =>
    have hmm : ({ m with IdRes := none } : Message) = m := by rw [← hm]
    simp [sIf, encSlot, hmm]
  | some a =>
    have ha := hb a (by simp)
    have hcnt : sIf (some a) + n = n + 1 := by simp [sIf]; omega
    rw [hcnt]
    simp only [encSlot, List.append_assoc]
    rw [decodePairs_succ, decKey_encKey kIR _ (by decide), optionBindSome]
    simp (disch := first | assumption | omega | decide)
      [decodeField, decIdRes_enc, kIR, kBhubver, kId, kIr]

theorem dpSlotListReq (n : Nat) (m : Message) (o : Option Unit)
    (rest : List Nat) (hm : m.ListReq = none) :
    decodePairs (sIf o + n) m (encSlot kLr (fun _ => encHead 5 0) o ++ rest) =
    decodePairs n { m with ListReq := o } rest := by
  cases o with
  | none =>
    have hmm : ({ m with ListReq := none } : Message) = m := by rw [← hm]
    simp [sIf, encSlot, hmm]
  | some a =>
    have hcnt : sIf (some a) + n = n + 1 := by simp [sIf]; omega
    rw [hcnt]
    simp only [encSlot, List.append_assoc]
    rw [decodePairs_succ, decKey_encKey kLr _ (by decide), optionBindSome]
    simp (disch := first | assumption | omega | decide)
      [decodeField, decEmptyMap_enc, kLr, kBhubver, kId, kIr, kIR]

theorem dpSlotListRes (n : Nat) (m : Message) (o : Option ListResponse)
    (rest : List Nat) (hm : m.ListRes = none)
    (hb : ∀ r ∈ o, r.Others.length < 2 ^ 64 ∧ ∀ c ∈ r.Others, c < 2 ^ 64) :
    decodePairs (sIf o + n) m (encSlot kLR encListRes o ++ rest) =
    decodePairs n { m with ListRes := o } rest := by
  cases o with
  | none =>
    have hmm : ({ m with ListRes := none } : Message) = m := by rw [← hm]
    simp [sIf, encSlot, hmm]
  | some a =>
    obtain ⟨ha1, ha2⟩ := hb a (by simp)
    have hcnt : sIf (some a) + n = n + 1 := by simp [sIf]; omega
    rw [hcnt]
    simp only [encSlot, List.append_assoc]
    rw [decodePairs_succ, decKey_encKey kLR _ (by decide), optionBindSome]
    simp (disch := first | assumption | omega | decide)
      [decodeField, decListRes_enc, kLR, kBhubver, kId, kIr, kIR, kLr]

theorem dpSlotRelayReq (n : Nat) (m : Message) (o : Option RelayRequest)
    (rest : List Nat) (hm : m.RelayReq = none)
    (hb : ∀ r ∈ o, r.Dest.length < 2 ^ 64 ∧ (∀ c ∈ r.Dest, c < 2 ^ 64) ∧
      r.Msg.length < 2 ^ 64 ∧ ∀ b ∈ r.Msg, b < 256) :
    decodePairs (sIf o + n) m (encSlot kRr encRelayReq o ++ rest) =
    decodePairs n { m with RelayReq := o } rest := by
  cases o with
  | none =>
    have hmm : ({ m with RelayReq := none } : Message) = m := by rw [← hm]
    simp [sIf, encSlot, hmm]
  | some a =>
    obtain ⟨ha1, ha2, ha3, ha4⟩ := hb a (by simp)
    have hcnt : sIf (some a) + n = n + 1 := by simp [sIf]; omega
    rw [hcnt]
    simp only [encSlot, List.append_assoc]
    rw [decodePairs_succ, decKey_encKey kRr _ (by decide), optionBindSome]
    simp (disch := first | assumption | omega | decide)
      [decodeField, decRelayReq_enc, kRr, kBhubver, kId, kIr, kIR, kLr, kLR]

theorem dpSlotRelayRes (n : Nat) (m : Message) (o : Option RelayResponse)
    (rest : List Nat) (hm : m.RelayRes = none)
    (hb : ∀ r ∈ o, r.Status < 2 ^ 64 ∧ wfStatusMap r.StatusMap) :
    decodePairs (sIf o + n) m (encSlot kRR encRelayRes o ++ rest) =
    decodePairs n { m with RelayRes := o } rest := by
  cases o with
  | none =>
    have hmm : ({ m with RelayRes := none } : Message) = m := by rw [← hm]
    simp [sIf, encSlot, hmm]
  | some a =>
    obtain ⟨ha1, ha2⟩ := hb a (by simp)
    have hcnt : sIf (some a) + n = n + 1 := by simp [sIf]; omega
    rw [hcnt]
    simp only [encSlot, List.append_assoc]
    rw [decodePairs_succ, decKey_encKey kRR _ (by decide), optionBindSome]
    simp (disch := first | assumption | omega | decide)
      [decodeField, decRelayRes_enc, kRR, kBhubver, kId, kIr, kIR, kLr, kLR, kRr]

theorem dpSlotRelayInd (n : Nat) (m : Message) (o : Option RelayIndication)
    (rest : List Nat) (hm : m.RelayInd = none)
    (hb : ∀ r ∈ o, r.Src < 2 ^ 64 ∧ r.Msg.length < 2 ^ 64 ∧ ∀ b ∈ r.Msg, b < 256) :
    decodePairs (sIf o + n) m (encSlot kRI encRelayInd o ++ rest) =
    decodePairs n { m with RelayInd := o } rest := by
  cases o with
  | none =>
    have hmm : ({ m with RelayInd := none } : Message) = m := by rw [← hm]
    simp [sIf, encSlot, hmm]
  | some a =>
    obtain ⟨ha1, ha2, ha3⟩ := hb a (by simp)
    have hcnt : sIf (some a) + n = n + 1 := by simp [sIf]; omega
    rw [hcnt]
    simp only [encSlot, List.append_assoc]
    rw [decodePairs_succ, decKey_encKey kRI _ (by decide), optionBindSome]
    simp (disch := first | assumption | omega | decide)
      [decodeField, decRelayInd_enc, kRI, kBhubver, kId, kIr, kIR, kLr, kLR, kRr, kRR]

theorem slotCount_le (m : Message) : slotCount m ≤ 7 := by
  have h1 : ∀ {α : Type} (o : Option α), sIf o ≤ 1 := by
    intro α o; cases o <;> simp [sIf]
  have := h1 m.IdReq
  have := h1 m.IdRes
  have := h1 m.ListReq
  have := h1 m.ListRes
  have := h1 m.RelayReq
  have := h1 m.RelayRes
  have := h1 m.RelayInd
  simp only [slotCount]
  omega

set_option maxHeartbeats 2000000 in
/-- One decoded envelope per encoded envelope: decoding the front of
`encode m ++ rest` yields `m` and leaves `rest` untouched. -/
theorem decodeMessage_encodeMessage (m : Message) (rest : List Nat)
    (h : wellFormed m) :
    decodeMessage (encodeMessage m ++ rest) = some (m, rest) := by
  obtain ⟨hv, hmid, hIR, hLR, hrr, hRR, hri⟩ := h
  have hslot := slotCount_le m
  simp only [encodeMessage, List.append_assoc, decodeMessage]
  rw [decExpect_encHead 5 _ _ (by omega) (by omega)]
  simp only [optionBindSome]
  simp only [slotCount]
  rw [show 2 + (sIf m.IdReq + (sIf m.IdRes + (sIf m.ListReq + (sIf m.ListRes +
        (sIf m.RelayReq + (sIf m.RelayRes + sIf m.RelayInd)))))) =
      (1 + (sIf m.IdReq + (sIf m.IdRes + (sIf m.ListReq + (sIf m.ListRes +
        (sIf m.RelayReq + (sIf m.RelayRes + sIf m.RelayInd))))))) + 1 from by omega]
  rw [dpBhubver _ _ _ _ hv]
  rw [show 1 + (sIf m.IdReq + (sIf m.IdRes + (sIf m.ListReq + (sIf m.ListRes +
        (sIf m.RelayReq + (sIf m.RelayRes + sIf m.RelayInd)))))) =
      (sIf m.IdReq + (sIf m.IdRes + (sIf m.ListReq + (sIf m.ListRes +
        (sIf m.RelayReq + (sIf m.RelayRes + sIf m.RelayInd)))))) + 1 from by omega]
  rw [dpId _ _ _ _ hmid]
  rw [dpSlotIdReq _ _ _ _ rfl]
  rw [dpSlotIdRes _ _ _ _ rfl hIR]
  rw [dpSlotListReq _ _ _ _ rfl]
  rw [dpSlotListRes _ _ _ _ rfl hLR]
  rw [dpSlotRelayReq _ _ _ _ rfl hrr]
  rw [dpSlotRelayRes _ _ _ _ rfl hRR]
  rw [show sIf m.RelayInd = sIf m.RelayInd + 0 from (Nat.add_zero _).symm]
  rw [dpSlotRelayInd _ _ _ _ rfl hri]
  rfl

/-- `cbor.Unmarshal` on exactly one encoded envelope. -/
theorem Decode_encodeMessage (m : Message) (h : wellFormed m) :
    Decode (encodeMessage m) = some m := by
  have e := decodeMessage_encodeMessage m [] h
  rw [List.append_nil] at e
  simp [Decode, e]

theorem encodeMessage_length_pos (m : Message) : 0 < (encodeMessage m).length := by
  have : ∀ major x, 0 < (encHead major x).length := by
    intro major x
    unfold encHead
    split_ifs <;> simp [encBE]
  simp only [encodeMessage, List.length_append]
  have := this 5 (2 + slotCount m)
  omega

theorem decodeMessage_nil : decodeMessage [] = none := rfl

theorem length_flatten_encodes (ms : List Message) :
    ms.length ≤ ((ms.map encodeMessage).flatten).length := by
  induction ms with
  | nil => simp
  | cons m tl ih =>
    have := encodeMessage_length_pos m
    simp only [List.map_cons, List.flatten_cons, List.length_cons, List.length_append]
    omega

theorem decodeStreamFuel_encode (ms : List Message) : ∀ fuel, ms.length ≤ fuel →
    (∀ m ∈ ms, wellFormed m) →
    decodeStreamFuel fuel ((ms.map encodeMessage).flatten) = ms := by
  induction ms with
  | nil =>
    intro fuel _ _
    cases fuel with
    | zero => rfl
    | succ f => simp [decodeStreamFuel, decodeMessage_nil]
  | cons m tl ih =>
    intro fuel hf hwf
    cases fuel with
    | zero => simp only [List.length_cons] at hf; omega
    | succ f =>
      have hm := decodeMessage_encodeMessage m ((tl.map encodeMessage).flatten)
        (hwf m (by simp))
      simp only [List.map_cons, List.flatten_cons, decodeStreamFuel, hm]
      rw [ih f (by simp only [List.length_cons] at hf; omega) (fun x hx => hwf x (by simp [hx]))]

/-- The stream decoder applied to a concatenation of encodings yields
exactly the encoded envelopes, in order. -/
theorem decodeStream_encode (ms : List Message) (h : ∀ m ∈ ms, wellFormed m) :
    decodeStream ((ms.map encodeMessage).flatten) = ms :=
  decodeStreamFuel_encode ms _ (length_flatten_encodes ms) h

/-! ## Registry and status-map lemmas -/

theorem smLookup_insert_self (sm : ClientStatusMap) (c : ClientId) (s : Status) :
    smLookup (smInsert sm c s) c = some s := by
  induction sm with
  | nil => simp [smInsert, smLookup]
  | cons p tl ih =>
    by_cases h : p.1 = c
    · simp [smInsert, smLookup, h]
    · simp [smInsert, smLookup, h, ih]

theorem smLookup_insert_ne (sm : ClientStatusMap) (c c' : ClientId) (s : Status)
    (h : c' ≠ c) : smLookup (smInsert sm c s) c' = smLookup sm c' := by
  induction sm with
  | nil =>
    simp only [smInsert, smLookup]
    rw [if_neg (Ne.symm h)]
  | cons p tl ih =>
    by_cases hp : p.1 = c
    · subst hp
      simp only [smInsert, if_pos rfl, smLookup]
      rw [if_neg (Ne.symm h), if_neg (Ne.symm h)]
    · simp only [smInsert, if_neg hp, smLookup, ih]

theorem smLookup_mem_keys (sm : ClientStatusMap) (c : ClientId) :
    c ∈ sm.map Prod.fst ↔ smLookup sm c ≠ none := by
  induction sm with
  | nil => simp [smLookup]
  | cons p tl ih =>
    by_cases h : p.1 = c
    · simp [smLookup, h]
    · simp [smLookup, h, ih, Ne.symm h]

theorem smLookup_insert_isSome (sm : ClientStatusMap) (c c' : ClientId) (s : Status)
    (h : smLookup (smInsert sm c s) c' ≠ none) :
    c' = c ∨ smLookup sm c' ≠ none := by
  by_cases hc : c' = c
  · exact Or.inl hc
  · rw [smLookup_insert_ne sm c c' s hc] at h
    exact Or.inr h

theorem regEnqueue_cons (p : ClientId × List RelayIndication) (tl : Registry)
    (c : ClientId) (ind : RelayIndication) :
    regEnqueue (p :: tl) c ind =
    (if p.1 = c then (p.1, p.2 ++ [ind]) else p) :: regEnqueue tl c ind := by
  simp only [regEnqueue, List.map_cons]

theorem regLookup_enqueue_ne (reg : Registry) (c c' : ClientId)
    (ind : RelayIndication) (h : c' ≠ c) :
    regLookup (regEnqueue reg c ind) c' = regLookup reg c' := by
  induction reg with
  | nil => simp [regEnqueue, regLookup]
  | cons p tl ih =>
    rw [regEnqueue_cons]
    by_cases hp : p.1 = c
    · subst hp
      simp [regLookup, Ne.symm h, ih]
    · by_cases hp' : p.1 = c'
      · simp [if_neg hp, regLookup, hp', h]
      · simp [if_neg hp, regLookup, hp', ih]

theorem regLookup_enqueue_self (reg : Registry) (c : ClientId)
    (ind : RelayIndication) :
    regLookup (regEnqueue reg c ind) c = (regLookup reg c).map (· ++ [ind]) := by
  induction reg with
  | nil => simp [regEnqueue, regLookup]
  | cons p tl ih =>
    rw [regEnqueue_cons]
    by_cases hp : p.1 = c
    · subst hp
      simp [regLookup]
    · simp [if_neg hp, regLookup, ih]

theorem regKeys_enqueue (reg : Registry) (c : ClientId) (ind : RelayIndication) :
    (regEnqueue reg c ind).map Prod.fst = reg.map Prod.fst := by
  induction reg with
  | nil => simp [regEnqueue]
  | cons p tl ih =>
    rw [regEnqueue_cons]
    by_cases hp : p.1 = c
    · simp only [if_pos hp, List.map_cons, ih]
    · simp only [if_neg hp, List.map_cons, ih]

/-! ## `sendRelays` fold invariants (claim C1) -/

theorem relayFold_keys (ind : RelayIndication) (dest : List ClientId) :
    ∀ sm reg c, smLookup ((dest.foldl (relayStep ind) (sm, reg)).1) c ≠ none →
      smLookup sm c ≠ none ∨ c ∈ dest := by
  induction dest with
  | nil => intro sm reg c h; exact Or.inl h
  | cons d tl ih =>
    intro sm reg c h
    simp only [List.foldl_cons] at h
    rcases hstep : relayStep ind (sm, reg) d with ⟨sm', reg'⟩
    rw [hstep] at h
    rcases ih sm' reg' c h with h' | h'
    · unfold relayStep at hstep
      rcases hreg : regLookup reg d with _ | q <;> rw [hreg] at hstep
      · simp only [Prod.mk.injEq] at hstep
        rw [← hstep.1] at h'
        rcases smLookup_insert_isSome sm d c INVALID_ID h' with h2 | h2
        · exact Or.inr (by simp [h2])
        · exact Or.inl h2
      · by_cases hq : q.length < maxBufferedMessages <;>
          simp only [hq, if_true, if_false, Prod.mk.injEq] at hstep
        · rw [← hstep.1] at h'
          exact Or.inl h'
        · rw [← hstep.1] at h'
          rcases smLookup_insert_isSome sm d c NO_BUFFER h' with h2 | h2
          · exact Or.inr (by simp [h2])
          · exact Or.inl h2
    · exact Or.inr (by simp [h'])

theorem relayFold_vals (ind : RelayIndication) (dest : List ClientId) :
    ∀ sm reg c s,
      (∀ c' s', smLookup sm c' = some s' → s' = INVALID_ID ∨ s' = NO_BUFFER) →
      smLookup ((dest.foldl (relayStep ind) (sm, reg)).1) c = some s →
      s = INVALID_ID ∨ s = NO_BUFFER := by
  induction dest with
  | nil => intro sm reg c s hinv h; exact hinv c s h
  | cons d tl ih =>
    intro sm reg c s hinv h
    simp only [List.foldl_cons] at h
    rcases hstep : relayStep ind (sm, reg) d with ⟨sm', reg'⟩
    rw [hstep] at h
    refine ih sm' reg' c s ?_ h
    intro c' s' h'
    unfold relayStep at hstep
    rcases hreg : regLookup reg d with _ | q <;> rw [hreg] at hstep
    · simp only [Prod.mk.injEq] at hstep
      rw [← hstep.1] at h'
      by_cases hc : c' = d
      · subst hc
        rw [smLookup_insert_self] at h'
        exact Or.inl (by injection h' with h''; exact h''.symm)
      · rw [smLookup_insert_ne sm d c' INVALID_ID hc] at h'
        exact hinv c' s' h'
    · by_cases hq : q.length < maxBufferedMessages <;>
        simp only [hq, if_true, if_false, Prod.mk.injEq] at hstep
      · rw [← hstep.1] at h'
        exact hinv c' s' h'
      · rw [← hstep.1] at h'
        by_cases hc : c' = d
        · subst hc
          rw [smLookup_insert_self] at h'
          exact Or.inr (by injection h' with h''; exact h''.symm)
        · rw [smLookup_insert_ne sm d c' NO_BUFFER hc] at h'
          exact hinv c' s' h'

theorem relayStep_absent (ind : RelayIndication) (sm : ClientStatusMap)
    (reg : Registry) (d : ClientId) (h : regLookup reg d = none) :
    relayStep ind (sm, reg) d = (smInsert sm d INVALID_ID, reg) := by
  simp [relayStep, h]

theorem relayStep_full (ind : RelayIndication) (sm : ClientStatusMap)
    (reg : Registry) (d : ClientId) (q : List RelayIndication)
    (h : regLookup reg d = some q) (hq : ¬ q.length < maxBufferedMessages) :
    relayStep ind (sm, reg) d = (smInsert sm d NO_BUFFER, reg) := by
  simp [relayStep, h, hq]

theorem relayStep_enqueue (ind : RelayIndication) (sm : ClientStatusMap)
    (reg : Registry) (d : ClientId) (q : List RelayIndication)
    (h : regLookup reg d = some q) (hq : q.length < maxBufferedMessages) :
    relayStep ind (sm, reg) d = (sm, regEnqueue reg d ind) := by
  simp [relayStep, h, hq]

theorem relayFold_frame (ind : RelayIndication) (dest : List ClientId) :
    ∀ sm reg c, c ∉ dest →
      smLookup ((dest.foldl (relayStep ind) (sm, reg)).1) c = smLookup sm c := by
  induction dest with
  | nil => intro sm reg c _; rfl
  | cons d tl ih =>
    intro sm reg c hc
    have hdc : c ≠ d := fun h => hc (by simp [h])
    have htl : c ∉ tl := fun h => hc (by simp [h])
    simp only [List.foldl_cons]
    rcases hreg : regLookup reg d with _ | q
    · rw [relayStep_absent ind sm reg d hreg, ih _ _ _ htl,
        smLookup_insert_ne _ _ _ _ hdc]
    · by_cases hq : q.length < maxBufferedMessages
      · rw [relayStep_enqueue ind sm reg d q hreg hq, ih _ _ _ htl]
      · rw [relayStep_full ind sm reg d q hreg hq, ih _ _ _ htl,
          smLookup_insert_ne _ _ _ _ hdc]

theorem relayFold_invalid (ind : RelayIndication) (dest : List ClientId) :
    ∀ sm reg c, regLookup reg c = none → c ∈ dest →
      smLookup ((dest.foldl (relayStep ind) (sm, reg)).1) c = some INVALID_ID := by
  induction dest with
  | nil => intro sm reg c _ h; cases h
  | cons d tl ih =>
    intro sm reg c hreg hc
    simp only [List.foldl_cons]
    by_cases hdc : d = c
    · subst hdc
      rw [relayStep_absent ind sm reg d hreg]
      by_cases htl : d ∈ tl
      · exact ih _ _ _ hreg htl
      · rw [relayFold_frame ind tl _ _ _ htl, smLookup_insert_self]
    · have htl : c ∈ tl := by
        rcases List.mem_cons.mp hc with h | h
        · exact absurd h.symm hdc
        · exact h
      rcases hregd : regLookup reg d with _ | q
      · rw [relayStep_absent ind sm reg d hregd]
        exact ih _ _ _ hreg htl
      · by_cases hq : q.length < maxBufferedMessages
        · rw [relayStep_enqueue ind sm reg d q hregd hq]
          refine ih _ _ _ ?_ htl
          rw [regLookup_enqueue_ne _ _ _ _ (fun h => hdc h.symm), hreg]
        · rw [relayStep_full ind sm reg d q hregd hq]
          exact ih _ _ _ hreg htl

theorem relayFold_nobuffer (ind : RelayIndication) (dest : List ClientId) :
    ∀ sm reg c q, regLookup reg c = some q →
      ¬ q.length < maxBufferedMessages → c ∈ dest →
      smLookup ((dest.foldl (relayStep ind) (sm, reg)).1) c = some NO_BUFFER := by
  induction dest with
  | nil => intro sm reg c q _ _ h; cases h
  | cons d tl ih =>
    intro sm reg c q hreg hfull hc
    simp only [List.foldl_cons]
    by_cases hdc : d = c
    · subst hdc
      rw [relayStep_full ind sm reg d q hreg hfull]
      by_cases htl : d ∈ tl
      · exact ih _ _ _ q hreg hfull htl
      · rw [relayFold_frame ind tl _ _ _ htl, smLookup_insert_self]
    · have htl : c ∈ tl := by
        rcases List.mem_cons.mp hc with h | h
        · exact absurd h.symm hdc
        · exact h
      rcases hregd : regLookup reg d with _ | q'
      · rw [relayStep_absent ind sm reg d hregd]
        exact ih _ _ _ q hreg hfull htl
      · by_cases hq : q'.length < maxBufferedMessages
        · rw [relayStep_enqueue ind sm reg d q' hregd hq]
          refine ih _ _ _ q ?_ hfull htl
          rw [regLookup_enqueue_ne _ _ _ _ (fun h => hdc h.symm), hreg]
        · rw [relayStep_full ind sm reg d q' hregd hq]
          exact ih _ _ _ q hreg hfull htl

theorem relayFold_omitted (ind : RelayIndication) (dest : List ClientId) :
    ∀ sm reg c q, regLookup reg c = some q →
      q.length + dest.count c ≤ maxBufferedMessages →
      smLookup sm c = none →
      smLookup ((dest.foldl (relayStep ind) (sm, reg)).1) c = none := by
  induction dest with
  | nil => intro sm reg c q _ _ hsm; exact hsm
  | cons d tl ih =>
    intro sm reg c q hreg hcnt hsm
    simp only [List.foldl_cons]
    by_cases hdc : d = c
    · subst hdc
      simp only [List.count_cons, beq_self_eq_true, if_true] at hcnt
      have hq : q.length < maxBufferedMessages := by omega
      rw [relayStep_enqueue ind sm reg d q hreg hq]
      refine ih _ _ _ (q ++ [ind]) ?_ ?_ hsm
      · rw [regLookup_enqueue_self, hreg]
        rfl
      · simp only [List.length_append, List.length_singleton]
        omega
    · simp only [List.count_cons] at hcnt
      rw [if_neg (by simpa using hdc)] at hcnt
      have hcnt' : q.length + tl.count c ≤ maxBufferedMessages := by omega
      rcases hregd : regLookup reg d with _ | q'
      · rw [relayStep_absent ind sm reg d hregd]
        refine ih _ _ _ q hreg hcnt' ?_
        rw [smLookup_insert_ne _ _ _ _ (fun h => hdc h.symm)]
        exact hsm
      · by_cases hq : q'.length < maxBufferedMessages
        · rw [relayStep_enqueue ind sm reg d q' hregd hq]
          refine ih _ _ _ q ?_ hcnt' hsm
          rw [regLookup_enqueue_ne _ _ _ _ (fun h => hdc h.symm), hreg]
        · rw [relayStep_full ind sm reg d q' hregd hq]
          refine ih _ _ _ q hreg hcnt' ?_
          rw [smLookup_insert_ne _ _ _ _ (fun h => hdc h.symm)]
          exact hsm

/-! ## `getClientIds` lemmas (claims C5 and C10) -/

theorem filter_ne_of_not_mem (keys : List ClientId) (except : ClientId)
    (h : except ∉ keys) : keys.filter (fun k => k ≠ except) = keys := by
  refine List.filter_eq_self.mpr ?_
  intro a ha
  simp only [decide_eq_true_eq]
  exact fun he => h (he ▸ ha)

theorem filter_ne_length_of_mem (keys : List ClientId) (except : ClientId)
    (hnd : keys.Nodup) (hm : except ∈ keys) :
    (keys.filter (fun k => k ≠ except)).length + 1 = keys.length := by
  induction keys with
  | nil => cases hm
  | cons k tl ih =>
    rw [List.nodup_cons] at hnd
    by_cases hk : k = except
    · subst hk
      have : tl.filter (fun x => x ≠ k) = tl := filter_ne_of_not_mem tl k hnd.1
      simp [List.filter_cons, this]
      exact fun a ha hak => hnd.1 (hak ▸ ha)
    · have hm' : except ∈ tl := by
        rcases List.mem_cons.mp hm with h | h
        · exact absurd h.symm hk
        · exact h
      simp only [List.filter_cons, decide_eq_true_eq, hk, if_pos, List.length_cons]
      rw [if_pos (by simpa using hk)]
      simp only [List.length_cons]
      rw [ih hnd.2 hm']

theorem getClientIds_of_mem (keys : List ClientId) (except : ClientId)
    (hnd : keys.Nodup) (hm : except ∈ keys) :
    getClientIds keys except = some (keys.filter (fun k => k ≠ except)) := by
  have hlen := filter_ne_length_of_mem keys except hnd hm
  have hne : keys.length ≠ 0 := by
    intro h
    rw [List.length_eq_zero] at h
    subst h
    cases hm
  simp only [getClientIds, if_neg hne]
  rw [if_neg (by omega)]
  rw [show keys.length - 1 - (keys.filter (fun k => k ≠ except)).length = 0 from by omega]
  simp

theorem getClientIds_panic_empty (except : ClientId) :
    getClientIds [] except = none := rfl

theorem getClientIds_panic_not_mem (keys : List ClientId) (except : ClientId)
    (hne : keys ≠ []) (hm : except ∉ keys) :
    getClientIds keys except = none := by
  have hfe := filter_ne_of_not_mem keys except hm
  have hlen : 0 < keys.length := List.length_pos.mpr hne
  simp only [getClientIds]
  rw [if_neg (by omega), if_pos (by rw [hfe]; omega)]

/-! ## Handle-minting lemmas (claim C9) -/

theorem mintFrom_eq_range' (n : Nat) : ∀ c, c + n < 2 ^ 64 →
    mintFrom c n = List.range' (c + 1) n := by
  induction n with
  | zero => intro c _; rfl
  | succ n ih =>
    intro c h
    have h1 : (c + 1) % 2 ^ 64 = c + 1 := Nat.mod_eq_of_lt (by omega)
    show ((c + 1) % 2 ^ 64) :: mintFrom ((c + 1) % 2 ^ 64) n = _
    rw [h1, ih (c + 1) (by omega), List.range'_succ]

theorem mintSeq_eq_range' (n : Nat) (h : n < 2 ^ 64) :
    mintSeq n = List.range' 1 n := by
  simp only [mintSeq]
  have := mintFrom_eq_range' n 0 (by omega)
  simpa using this

/-! ## Claim theorems -/

/-- C2: for every well-formed envelope `m`, `Decode (Encode m)` succeeds
and returns `m` (encoding itself never fails on this struct, so the Go
`ok` flag is true); and the streaming decoder applied to the
concatenation of the encodings of `m₁ … mₙ` yields exactly `m₁ … mₙ` in
order, each decode succeeding. -/
theorem C2_roundtrip_encoding :
    (∀ m : Message, wellFormed m → Decode (encodeMessage m) = some m) ∧
    (∀ ms : List Message, (∀ m ∈ ms, wellFormed m) →
      decodeStream ((ms.map encodeMessage).flatten) = ms) :=
  ⟨Decode_encodeMessage, decodeStream_encode⟩

/-- C4: size limits are enforced at both ends. The client's
`RelayMessage` with an oversize payload or destination list returns
`TOO_LONG` locally, writes nothing, and registers no waiter; the hub's
`handleRelayRequest` on an oversize request produces a relay response
with overall status `TOO_LONG` and an empty status map and leaves every
destination queue untouched. -/
theorem C4_size_limits :
    (∀ (mid : Nat) (message : List Nat) (clients : List ClientId)
        (encOk writeOk : Bool) (ev : RecvEvent),
      message.length > 1024 ∨ clients.length > 255 →
      RelayMessage mid message clients encOk writeOk ev =
        ⟨[], TOO_LONG, none, false⟩) ∧
    (∀ (reg : Registry) (scCid : ClientId) (mesg : Message) (rr : RelayRequest),
      rr.Dest.length > 255 ∨ rr.Msg.length > 1024 →
      handleRelayRequest reg scCid mesg rr =
        ({ Version := MyVersion, MessageId := mesg.MessageId,
           RelayRes := some ⟨TOO_LONG, []⟩ }, reg)) := by
  constructor
  · intro mid message clients encOk writeOk ev h
    simp only [RelayMessage, if_pos h]
  · intro reg scCid mesg rr h
    simp only [handleRelayRequest, if_pos h]

theorem C4_size_limits_witness :
    ((List.replicate 1025 (0 : Nat)).length > 1024 ∨ ([5] : List ClientId).length > 255) ∧
    RelayMessage 1 (List.replicate 1025 0) [5] true true .timeout =
      ⟨[], TOO_LONG, none, false⟩ ∧
    handleRelayRequest [(5, [])] 1 { Version := 1, MessageId := 2 }
        ⟨[5], List.replicate 1025 0⟩ =
      ({ Version := MyVersion, MessageId := 2, RelayRes := some ⟨TOO_LONG, []⟩ },
       [(5, [])]) := by
  have hlen : (List.replicate 1025 (0 : Nat)).length = 1025 :=
    List.length_replicate 1025 0
  have h : (List.replicate 1025 (0 : Nat)).length > 1024 ∨
      ([5] : List ClientId).length > 255 := Or.inl (by omega)
  have h2 : (([5] : List ClientId)).length > 255 ∨
      (List.replicate 1025 (0 : Nat)).length > 1024 := Or.inr (by omega)
  exact ⟨h, C4_size_limits.1 1 _ _ true true .timeout h,
    C4_size_limits.2 [(5, [])] 1 { Version := 1, MessageId := 2 } ⟨[5], _⟩ h2⟩

/-- C6: encoding the envelope with version 1, message id `0x12` and only
the identify-request slot populated yields exactly the bytes
`a3 67 62 68 75 62 76 65 72 01 62 69 64 12 62 69 72 a0`; the first
handle a fresh server mints is 1, and the identify response for that
session carries id 1. -/
theorem C6_identify_vector :
    encodeMessage { Version := MyVersion, MessageId := 0x12, IdReq := some () } =
      [0xa3, 0x67, 0x62, 0x68, 0x75, 0x62, 0x76, 0x65, 0x72, 0x01,
       0x62, 0x69, 0x64, 0x12, 0x62, 0x69, 0x72, 0xa0] ∧
    (mintHandle 0).1 = 1 ∧
    (handleIdRequest (mintHandle 0).1
        { Version := MyVersion, MessageId := 0x12, IdReq := some () }).IdRes =
      some ⟨1⟩ := by
  refine ⟨by decide, by decide, by decide⟩

/-- C9: handles minted by successive `AddClientByConnection` calls on a
fresh server form the strictly increasing sequence 1, 2, 3, …: as long
as the 64-bit counter has not wrapped (fewer than `2^64` mints), the
sequence equals `[1, …, n]`, is strictly increasing, pairwise distinct,
and contains no zero — so no handle is reused within a server
lifetime. The atomic fetch-and-increment makes concurrent minting
linearize to exactly this sequence. -/
theorem C9_handle_minting (n : Nat) (h : n < 2 ^ 64) :
    mintSeq n = List.range' 1 n ∧
    (mintSeq n).Pairwise (· < ·) ∧
    (0 : ClientId) ∉ mintSeq n ∧
    (mintSeq n).Nodup := by
  have he := mintSeq_eq_range' n h
  refine ⟨he, ?_, ?_, ?_⟩
  · rw [he]
    exact List.pairwise_lt_range' 1 n
  · rw [he]
    intro hmem
    rw [List.mem_range'] at hmem
    omega
  · rw [he]
    exact List.nodup_range' 1 n

theorem C9_handle_minting_witness :
    (5 : Nat) < 2 ^ 64 ∧ mintSeq 5 = [1, 2, 3, 4, 5] ∧
    (0 : ClientId) ∉ mintSeq 5 ∧ (mintSeq 5).Nodup := by
  have h5 : (5 : Nat) < 2 ^ 64 := by norm_num
  have h := C9_handle_minting 5 h5
  exact ⟨h5, by rw [h.1]; rfl, h.2.2.1, h.2.2.2⟩

/-- C10: `getClientIds` is total only when `except_cid` is a key of the
clients map: on the empty map the `len(clients)-1` allocation panics,
and on any nonempty map not containing `except_cid` the loop writes out
of bounds and panics (`none` in the model); when `except_cid` is a key,
every write stays in bounds and the result has length exactly
`len(clients) - 1`. -/
theorem C10_getClientIds_partiality (keys : List ClientId) (except : ClientId) :
    (keys = [] → getClientIds keys except = none) ∧
    (except ∉ keys → keys ≠ [] → getClientIds keys except = none) ∧
    (keys.Nodup → except ∈ keys →
      getClientIds keys except =
        some (keys.filter (fun k => k ≠ except)) ∧
      (keys.filter (fun k => k ≠ except)).length = keys.length - 1) := by
  refine ⟨?_, ?_, ?_⟩
  · intro h
    subst h
    rfl
  · intro hm hne
    exact getClientIds_panic_not_mem keys except hne hm
  · intro hnd hm
    refine ⟨getClientIds_of_mem keys except hnd hm, ?_⟩
    have := filter_ne_length_of_mem keys except hnd hm
    omega

theorem C10_getClientIds_partiality_witness :
    getClientIds [] 3 = none ∧
    getClientIds [1, 2] 3 = none ∧
    getClientIds [1, 2, 3] 3 = some [1, 2] ∧ ([1, 2] : List ClientId).length = 2 := by
  have h1 := (C10_getClientIds_partiality [] 3).1 rfl
  have h2 := (C10_getClientIds_partiality [1, 2] 3).2.1 (by decide) (by decide)
  have h3 := (C10_getClientIds_partiality [1, 2, 3] 3).2.2 (by decide) (by decide)
  exact ⟨h1, h2, by rw [h3.1]; rfl, rfl⟩

theorem wellFormed_witness_msgs :
    wellFormed { Version := 1, MessageId := 0xBC,
                 RelayRes := some ⟨SUCCESS, [(2, NO_BUFFER), (3, INVALID_ID)]⟩ } ∧
    wellFormed { Version := 1, MessageId := 2, IdReq := some () } ∧
    wellFormed { Version := 1, MessageId := 3, ListRes := some ⟨[1, 2]⟩ } ∧
    wellFormed { Version := 1, MessageId := 4, RelayInd := some ⟨7, [1, 2, 3]⟩ } := by
  refine ⟨?_, ?_, ?_, ?_⟩
  · simp only [wellFormed, wfStatusMap]
    refine ⟨by norm_num, by norm_num, by simp, by simp, by simp, ?_, by simp⟩
    intro r hr
    simp only [Option.mem_def, Option.some.injEq] at hr
    subst hr
    refine ⟨by norm_num [SUCCESS], by simp, ?_⟩
    intro p hp
    simp only [List.mem_cons, List.not_mem_nil, or_false] at hp
    rcases hp with h | h <;> subst h <;>
      exact ⟨by norm_num, by norm_num [NO_BUFFER, INVALID_ID]⟩
  · simp [wellFormed, wfStatusMap]
  · simp [wellFormed, wfStatusMap]
  · simp [wellFormed, wfStatusMap]

theorem C2_roundtrip_encoding_witness :
    Decode (encodeMessage { Version := 1, MessageId := 0xBC,
                            RelayRes := some ⟨SUCCESS, [(2, NO_BUFFER), (3, INVALID_ID)]⟩ }) =
      some { Version := 1, MessageId := 0xBC,
             RelayRes := some ⟨SUCCESS, [(2, NO_BUFFER), (3, INVALID_ID)]⟩ } ∧
    decodeStream (([{ Version := 1, MessageId := 2, IdReq := some () },
        { Version := 1, MessageId := 3, ListRes := some ⟨[1, 2]⟩ },
        { Version := 1, MessageId := 4, RelayInd := some ⟨7, [1, 2, 3]⟩ }] :
          List Message).map encodeMessage).flatten =
      [{ Version := 1, MessageId := 2, IdReq := some () },
       { Version := 1, MessageId := 3, ListRes := some ⟨[1, 2]⟩ },
       { Version := 1, MessageId := 4, RelayInd := some ⟨7, [1, 2, 3]⟩ }] := by
  obtain ⟨w1, w2, w3, w4⟩ := wellFormed_witness_msgs
  constructor
  · exact C2_roundtrip_encoding.1 _ w1
  · refine C2_roundtrip_encoding.2 _ ?_
    intro m hm
    simp only [List.mem_cons, List.not_mem_nil, or_false] at hm
    rcases hm with h | h | h <;> subst h <;> assumption

/-- C1: for every relay request within the size limits, the hub's relay
response has overall status `SUCCESS`, and its status map satisfies:
keys are a subset of the destination list; every key carries a
non-`SUCCESS` status; a destination absent from the registry maps to
`INVALID_ID`; a destination whose indication queue is full maps to
`NO_BUFFER`; and a destination whose queue has room for every attempt
aimed at it is omitted from the map. -/
theorem C1_relay_status_map (reg : Registry) (scCid : ClientId) (mesg : Message)
    (rr : RelayRequest) (hd : rr.Dest.length ≤ 255) (hm : rr.Msg.length ≤ 1024) :
    handleRelayRequest reg scCid mesg rr =
      ({ Version := MyVersion, MessageId := mesg.MessageId,
         RelayRes := some ⟨SUCCESS, (sendRelays reg scCid rr).1⟩ },
       (sendRelays reg scCid rr).2) ∧
    (∀ c ∈ (sendRelays reg scCid rr).1.map Prod.fst, c ∈ rr.Dest) ∧
    (∀ c s, smLookup (sendRelays reg scCid rr).1 c = some s → s ≠ SUCCESS) ∧
    (∀ c ∈ rr.Dest, regLookup reg c = none →
      smLookup (sendRelays reg scCid rr).1 c = some INVALID_ID) ∧
    (∀ c ∈ rr.Dest, ∀ q, regLookup reg c = some q →
      ¬ q.length < maxBufferedMessages →
      smLookup (sendRelays reg scCid rr).1 c = some NO_BUFFER) ∧
    (∀ c ∈ rr.Dest, ∀ q, regLookup reg c = some q →
      q.length + rr.Dest.count c ≤ maxBufferedMessages →
      smLookup (sendRelays reg scCid rr).1 c = none) := by
  refine ⟨?_, ?_, ?_, ?_, ?_, ?_⟩
  · simp only [handleRelayRequest, if_neg (by omega :
      ¬ (rr.Dest.length > 255 ∨ rr.Msg.length > 1024))]
  · intro c hc
    rw [smLookup_mem_keys] at hc
    rcases relayFold_keys ⟨scCid, rr.Msg⟩ rr.Dest [] reg c hc with h | h
    · exact absurd rfl h
    · exact h
  · intro c s hs
    have := relayFold_vals ⟨scCid, rr.Msg⟩ rr.Dest [] reg c s
      (by intro c' s' h'; cases h') hs
    rcases this with h | h <;> subst h <;> decide
  · intro c hc hreg
    exact relayFold_invalid ⟨scCid, rr.Msg⟩ rr.Dest [] reg c hreg hc
  · intro c hc q hreg hfull
    exact relayFold_nobuffer ⟨scCid, rr.Msg⟩ rr.Dest [] reg c q hreg hfull hc
  · intro c hc q hreg hcnt
    exact relayFold_omitted ⟨scCid, rr.Msg⟩ rr.Dest [] reg c q hreg hcnt rfl

theorem C1_relay_status_map_witness :
    handleRelayRequest [(2, []), (3, [⟨9, []⟩, ⟨9, []⟩, ⟨9, []⟩])] 1
        { Version := 1, MessageId := 7 } ⟨[2, 3, 8], [5]⟩ =
      ({ Version := MyVersion, MessageId := 7,
         RelayRes := some ⟨SUCCESS,
           (sendRelays [(2, []), (3, [⟨9, []⟩, ⟨9, []⟩, ⟨9, []⟩])] 1
             ⟨[2, 3, 8], [5]⟩).1⟩ },
       (sendRelays [(2, []), (3, [⟨9, []⟩, ⟨9, []⟩, ⟨9, []⟩])] 1
         ⟨[2, 3, 8], [5]⟩).2) ∧
    smLookup (sendRelays [(2, []), (3, [⟨9, []⟩, ⟨9, []⟩, ⟨9, []⟩])] 1
        ⟨[2, 3, 8], [5]⟩).1 8 = some INVALID_ID ∧
    smLookup (sendRelays [(2, []), (3, [⟨9, []⟩, ⟨9, []⟩, ⟨9, []⟩])] 1
        ⟨[2, 3, 8], [5]⟩).1 3 = some NO_BUFFER ∧
    smLookup (sendRelays [(2, []), (3, [⟨9, []⟩, ⟨9, []⟩, ⟨9, []⟩])] 1
        ⟨[2, 3, 8], [5]⟩).1 2 = none := by
  have h := C1_relay_status_map [(2, []), (3, [⟨9, []⟩, ⟨9, []⟩, ⟨9, []⟩])] 1
    { Version := 1, MessageId := 7 } ⟨[2, 3, 8], [5]⟩ (by decide) (by decide)
  exact ⟨h.1,
    h.2.2.2.1 8 (by decide) (by decide),
    h.2.2.2.2.1 3 (by decide) [⟨9, []⟩, ⟨9, []⟩, ⟨9, []⟩] (by decide) (by decide),
    h.2.2.2.2.2 2 (by decide) [] (by decide) (by decide)⟩

/-- C3 counterexample: on an envelope carrying both a relay indication
and an identify-response slot, the client dispatcher publishes the
indication but delivers nothing to the waiter — the `else` branch in
`Client.startDispatcher` is skipped whenever `RelayInd` is populated,
so the populated response slot is not handled. -/
theorem C3_counterexample :
    (clientDispatch { Version := 1, MessageId := 5, IdRes := some ⟨9⟩,
                      RelayInd := some ⟨4, [1]⟩ }).deliverToWaiter = none ∧
    (clientDispatch { Version := 1, MessageId := 5, IdRes := some ⟨9⟩,
                      RelayInd := some ⟨4, [1]⟩ }).publishInd = some ⟨4, [1]⟩ ∧
    ({ Version := 1, MessageId := 5, IdRes := some ⟨9⟩,
       RelayInd := some ⟨4, [1]⟩ } : Message).IdRes ≠ none := by
  refine ⟨rfl, rfl, by decide⟩

/-- C3 (amended): the hub receiver handles each populated request slot
independently — an envelope carrying identify, list and relay requests
produces one response per slot, in slot order. The client receiver is
not slot-independent: an envelope carrying a relay indication is only
published to the indication channel (no waiter delivery, even if a
response slot is also populated), and an envelope without an indication
is delivered to the waiter matching its message id. -/
theorem C3_multi_slot_amended :
    (∀ (reg : Registry) (scCid : ClientId) (mesg : Message) (rr : RelayRequest),
      (reg.map Prod.fst).Nodup → scCid ∈ reg.map Prod.fst →
      mesg.IdReq = some () → mesg.ListReq = some () → mesg.RelayReq = some rr →
      hubHandleEnvelope reg scCid mesg =
        some ([handleIdRequest scCid mesg,
               { Version := MyVersion, MessageId := mesg.MessageId,
                 ListRes := some ⟨(reg.map Prod.fst).filter (fun k => k ≠ scCid)⟩ },
               (handleRelayRequest reg scCid mesg rr).1],
              (handleRelayRequest reg scCid mesg rr).2)) ∧
    (∀ mesg : Message, ∀ ri : RelayIndication, mesg.RelayInd = some ri →
      clientDispatch mesg = ⟨some ri, none⟩) ∧
    (∀ mesg : Message, mesg.RelayInd = none →
      clientDispatch mesg = ⟨none, some mesg⟩) := by
  refine ⟨?_, ?_, ?_⟩
  · intro reg scCid mesg rr hnd hm hid hlist hrr
    have hl := getClientIds_of_mem (reg.map Prod.fst) scCid hnd hm
    simp only [hubHandleEnvelope, hid, hlist, hrr, handleListRequest, hl,
      Option.map_some]
    rfl
  · intro mesg ri h
    simp only [clientDispatch, h]
  · intro mesg h
    simp only [clientDispatch, h]

theorem C3_multi_slot_amended_witness :
    hubHandleEnvelope [(1, []), (2, [])] 1
        { Version := 1, MessageId := 9, IdReq := some (), ListReq := some (),
          RelayReq := some ⟨[2], [7]⟩ } =
      some ([handleIdRequest 1
               { Version := 1, MessageId := 9, IdReq := some (), ListReq := some (),
                 RelayReq := some ⟨[2], [7]⟩ },
             { Version := MyVersion, MessageId := 9, ListRes := some ⟨[2]⟩ },
             (handleRelayRequest [(1, []), (2, [])] 1
               { Version := 1, MessageId := 9, IdReq := some (), ListReq := some (),
                 RelayReq := some ⟨[2], [7]⟩ } ⟨[2], [7]⟩).1],
            (handleRelayRequest [(1, []), (2, [])] 1
               { Version := 1, MessageId := 9, IdReq := some (), ListReq := some (),
                 RelayReq := some ⟨[2], [7]⟩ } ⟨[2], [7]⟩).2) ∧
    clientDispatch { Version := 1, MessageId := 5, RelayInd := some ⟨4, [1]⟩ } =
      ⟨some ⟨4, [1]⟩, none⟩ ∧
    clientDispatch { Version := 1, MessageId := 5, IdRes := some ⟨9⟩ } =
      ⟨none, some { Version := 1, MessageId := 5, IdRes := some ⟨9⟩ }⟩ := by
  refine ⟨?_, ?_, ?_⟩
  · have h := C3_multi_slot_amended.1 [(1, []), (2, [])] 1
      { Version := 1, MessageId := 9, IdReq := some (), ListReq := some (),
        RelayReq := some ⟨[2], [7]⟩ } ⟨[2], [7]⟩
      (by decide) (by decide) rfl rfl rfl
    rw [h]
    rfl
  · exact C3_multi_slot_amended.2.1 _ ⟨4, [1]⟩ rfl
  · exact C3_multi_slot_amended.2.2 _ rfl

/-- C5: a list response for a session whose handle is registered never
contains the requester's own handle and contains every other registered
handle exactly once. -/
theorem C5_list_self_exclusion (reg : Registry) (scCid : ClientId) (mesg : Message)
    (hnd : (reg.map Prod.fst).Nodup) (hm : scCid ∈ reg.map Prod.fst) :
    ∃ l : List ClientId,
      handleListRequest reg scCid mesg =
        some { Version := MyVersion, MessageId := mesg.MessageId,
               ListRes := some ⟨l⟩ } ∧
      scCid ∉ l ∧
      (∀ c ∈ reg.map Prod.fst, c ≠ scCid → l.count c = 1) ∧
      (∀ c ∈ l, c ∈ reg.map Prod.fst ∧ c ≠ scCid) := by
  refine ⟨(reg.map Prod.fst).filter (fun k => k ≠ scCid), ?_, ?_, ?_, ?_⟩
  · simp only [handleListRequest, getClientIds_of_mem (reg.map Prod.fst) scCid hnd hm]
    rfl
  · intro h
    have := List.of_mem_filter h
    simp at this
  · intro c hc hne
    have hmem : c ∈ (reg.map Prod.fst).filter (fun k => k ≠ scCid) :=
      List.mem_filter.mpr ⟨hc, by simpa using hne⟩
    exact List.count_eq_one_of_mem (List.Nodup.filter _ hnd) hmem
  · intro c hc
    have h1 := List.mem_of_mem_filter hc
    have h2 := List.of_mem_filter hc
    simp only [decide_eq_true_eq] at h2
    exact ⟨h1, h2⟩

theorem C5_list_self_exclusion_witness :
    handleListRequest [(1, []), (2, []), (3, [])] 2 { Version := 1, MessageId := 4 } =
      some { Version := MyVersion, MessageId := 4, ListRes := some ⟨[1, 3]⟩ } ∧
    (2 : ClientId) ∉ [(1 : ClientId), 3] := by
  obtain ⟨l, h1, h2, h3, h4⟩ := C5_list_self_exclusion [(1, []), (2, []), (3, [])] 2
    { Version := 1, MessageId := 4 } (by decide) (by decide)
  have hl : l = [1, 3] := by
    have : ([(1, []), (2, []), (3, [])] : Registry).map Prod.fst = [1, 2, 3] := rfl
    rw [handleListRequest] at h1
    simp only [this] at h1 ⊢
    have := getClientIds_of_mem [1, 2, 3] 2 (by decide) (by decide)
    simp [getClientIds] at h1
    cases h1
    rfl
  subst hl
  exact ⟨h1, by decide⟩

/-- C7: for each client request operation — encoder failure returns
`ENCODING_ERROR`; a write error or short write returns
`CONNECTION_ERROR`; the response channel closing before data returns
`CONNECTION_ERROR`; a received envelope missing the expected response
slot returns `ENCODING_ERROR`; deadline expiry returns `TIMEOUT` — and
the caller always sees one of the defined statuses (for `RelayMessage`,
whose delivered status is read off the wire, provided the peer's
overall status is itself a defined status). Size hypotheses on
`RelayMessage` keep the local `TOO_LONG` check from preempting the
clause under test. -/
theorem C7_client_error_contract :
    (∀ writeOk ev, (GetClientId false writeOk ev).2 = ENCODING_ERROR) ∧
    (∀ ev, (GetClientId true false ev).2 = CONNECTION_ERROR) ∧
    ((GetClientId true true .closed).2 = CONNECTION_ERROR) ∧
    (∀ rsp : Message, rsp.IdRes = none →
      (GetClientId true true (.delivered rsp)).2 = ENCODING_ERROR) ∧
    ((GetClientId true true .timeout).2 = TIMEOUT) ∧
    (∀ encOk writeOk ev, (GetClientId encOk writeOk ev).2 ∈ definedStatuses) ∧
    (∀ writeOk ev, (ListOtherClients false writeOk ev).2 = ENCODING_ERROR) ∧
    (∀ ev, (ListOtherClients true false ev).2 = CONNECTION_ERROR) ∧
    ((ListOtherClients true true .closed).2 = CONNECTION_ERROR) ∧
    (∀ rsp : Message, rsp.ListRes = none →
      (ListOtherClients true true (.delivered rsp)).2 = ENCODING_ERROR) ∧
    ((ListOtherClients true true .timeout).2 = TIMEOUT) ∧
    (∀ encOk writeOk ev, (ListOtherClients encOk writeOk ev).2 ∈ definedStatuses) ∧
    (∀ mid message clients writeOk ev, message.length ≤ 1024 →
      clients.length ≤ 255 →
      (RelayMessage mid message clients false writeOk ev).status = ENCODING_ERROR) ∧
    (∀ mid message clients ev, message.length ≤ 1024 → clients.length ≤ 255 →
      (RelayMessage mid message clients true false ev).status = CONNECTION_ERROR) ∧
    (∀ mid message clients, message.length ≤ 1024 → clients.length ≤ 255 →
      (RelayMessage mid message clients true true .closed).status =
        CONNECTION_ERROR) ∧
    (∀ mid message clients (rsp : Message), message.length ≤ 1024 →
      clients.length ≤ 255 → rsp.RelayRes = none →
      (RelayMessage mid message clients true true (.delivered rsp)).status =
        ENCODING_ERROR) ∧
    (∀ mid message clients, message.length ≤ 1024 → clients.length ≤ 255 →
      (RelayMessage mid message clients true true .timeout).status = TIMEOUT) ∧
    (∀ mid message clients encOk writeOk ev,
      (∀ (rsp : Message) (rr : RelayResponse), ev = .delivered rsp →
        rsp.RelayRes = some rr → rr.Status ∈ definedStatuses) →
      (RelayMessage mid message clients encOk writeOk ev).status ∈
        definedStatuses) := by
  refine ⟨?_, ?_, ?_, ?_, ?_, ?_, ?_, ?_, ?_, ?_, ?_, ?_, ?_, ?_, ?_, ?_, ?_, ?_⟩
  · intro writeOk ev
    simp [GetClientId, clientSendMessage, ENCODING_ERROR, SUCCESS]
  · intro ev
    simp [GetClientId, clientSendMessage, CONNECTION_ERROR, SUCCESS]
  · simp [GetClientId, clientSendMessage, CONNECTION_ERROR, SUCCESS]
  · intro rsp h
    simp [GetClientId, clientSendMessage, ENCODING_ERROR, SUCCESS, h]
  · simp [GetClientId, clientSendMessage, TIMEOUT, SUCCESS]
  · intro encOk writeOk ev
    cases encOk <;> cases writeOk <;> cases ev <;>
      simp [GetClientId, clientSendMessage, definedStatuses, SUCCESS,
        CONNECTION_ERROR, ENCODING_ERROR, TIMEOUT] <;>
      (try rename_i rsp) <;> (try rcases rsp.IdRes with _ | r) <;> simp_all
  · intro writeOk ev
    simp [ListOtherClients, clientSendMessage, ENCODING_ERROR, SUCCESS]
  · intro ev
    simp [ListOtherClients, clientSendMessage, CONNECTION_ERROR, SUCCESS]
  · simp [ListOtherClients, clientSendMessage, CONNECTION_ERROR, SUCCESS]
  · intro rsp h
    simp [ListOtherClients, clientSendMessage, ENCODING_ERROR, SUCCESS, h]
  · simp [ListOtherClients, clientSendMessage, TIMEOUT, SUCCESS]
  · intro encOk writeOk ev
    cases encOk <;> cases writeOk <;> cases ev <;>
      simp [ListOtherClients, clientSendMessage, definedStatuses, SUCCESS,
        CONNECTION_ERROR, ENCODING_ERROR, TIMEOUT] <;>
      (try rename_i rsp) <;> (try rcases rsp.ListRes with _ | r) <;> simp_all
  · intro mid message clients writeOk ev h1 h2
    simp [RelayMessage, ENCODING_ERROR, if_neg (by omega :
      ¬ (message.length > 1024 ∨ clients.length > 255))]
  · intro mid message clients ev h1 h2
    simp [RelayMessage, CONNECTION_ERROR, if_neg (by omega :
      ¬ (message.length > 1024 ∨ clients.length > 255))]
  · intro mid message clients h1 h2
    simp [RelayMessage, CONNECTION_ERROR, if_neg (by omega :
      ¬ (message.length > 1024 ∨ clients.length > 255))]
  · intro mid message clients rsp h1 h2 h3
    simp [RelayMessage, ENCODING_ERROR, h3, if_neg (by omega :
      ¬ (message.length > 1024 ∨ clients.length > 255))]
  · intro mid message clients h1 h2
    simp [RelayMessage, TIMEOUT, if_neg (by omega :
      ¬ (message.length > 1024 ∨ clients.length > 255))]
  · intro mid message clients encOk writeOk ev hwire
    by_cases hsz : message.length > 1024 ∨ clients.length > 255
    · simp [RelayMessage, if_pos hsz, definedStatuses]
    · cases encOk <;> cases writeOk <;> cases ev <;>
        simp [RelayMessage, if_neg hsz, definedStatuses] <;>
        [skip] <;> first
        | rfl
        | (rename_i rsp
           rcases hr : rsp.RelayRes with _ | rr
           · simp [hr]
           · simp [hr]
             have := hwire rsp rr rfl hr
             simpa [definedStatuses] using this)

theorem C7_client_error_contract_witness :
    (GetClientId false true .timeout).2 = ENCODING_ERROR ∧
    (GetClientId true false .timeout).2 = CONNECTION_ERROR ∧
    (GetClientId true true .closed).2 = CONNECTION_ERROR ∧
    (GetClientId true true (.delivered { Version := 1, MessageId := 1 })).2 =
      ENCODING_ERROR ∧
    (GetClientId true true .timeout).2 = TIMEOUT ∧
    (GetClientId true true
      (.delivered { Version := 1, MessageId := 1, IdRes := some ⟨3⟩ })).2 ∈
      definedStatuses ∧
    (ListOtherClients true true .timeout).2 = TIMEOUT ∧
    (RelayMessage 1 [2] [3] false true .timeout).status = ENCODING_ERROR ∧
    (RelayMessage 1 [2] [3] true true .timeout).status = TIMEOUT ∧
    (RelayMessage 1 [2] [3] true true
      (.delivered { Version := 1, MessageId := 1,
                    RelayRes := some ⟨SUCCESS, []⟩ })).status ∈
      definedStatuses := by
  obtain ⟨g1, g2, g3, g4, g5, g6, l1, l2, l3, l4, l5, l6, r1, r2, r3, r4, r5, r6⟩ :=
    C7_client_error_contract
  refine ⟨g1 true .timeout, g2 .timeout, g3, g4 _ rfl, g5, g6 true true _, l5,
    r1 1 [2] [3] true .timeout (by norm_num) (by norm_num),
    r5 1 [2] [3] (by norm_num) (by norm_num), ?_⟩
  refine r6 1 [2] [3] true true _ ?_
  intro rsp rr hev hr
  cases hev
  simp only [Option.some.injEq] at hr
  subst hr
  simp [definedStatuses]

/-- C8 counterexample: at the inner blocking select, with no response
available at the outer select, a response send and a queued indication
can be ready simultaneously; Go's select then chooses uniformly at
random, and on the indication branch an indication is transmitted while
a response is pending on the response queue — refuting strict priority
as stated. -/
theorem C8_counterexample :
    senderSelect none (some { Version := 1, MessageId := 1, IdRes := some ⟨1⟩ })
        (some ⟨2, [3]⟩) false = some (.indication ⟨2, [3]⟩) ∧
    (some { Version := 1, MessageId := 1, IdRes := some ⟨1⟩ } : Option Message) ≠
      none := by
  exact ⟨rfl, by decide⟩

/-- C8 (amended): if a response is immediately available at the outer
select of a sender iteration, it is taken — and so transmitted — before
any queued relay indication; an indication is only ever taken in an
iteration in which no response was immediately available at the outer
select. (At the inner blocking select, a simultaneously arriving
response and indication are chosen between nondeterministically, so an
indication can still be sent while a response is pending there; the
hypotheses of the second conjunct record exactly the outer-select
guarantee.) -/
theorem C8_response_priority_amended :
    (∀ (m : Message) (resp2 : Option Message) (indi : Option RelayIndication)
        (t : Bool), senderSelect (some m) resp2 indi t = some (.response m)) ∧
    (∀ (resp1 resp2 : Option Message) (indi : Option RelayIndication) (t : Bool)
        (r : RelayIndication),
      senderSelect resp1 resp2 indi t = some (.indication r) → resp1 = none) := by
  constructor
  · intro m resp2 indi t
    rfl
  · intro resp1 resp2 indi t r h
    cases resp1 with
    | none => rfl
    | some m => simp [senderSelect] at h

theorem C8_response_priority_amended_witness :
    senderSelect (some { Version := 1, MessageId := 1, IdRes := some ⟨1⟩ })
        (some { Version := 1, MessageId := 2 }) (some ⟨2, [3]⟩) false =
      some (.response { Version := 1, MessageId := 1, IdRes := some ⟨1⟩ }) ∧
    (none : Option Message) = none := by
  refine ⟨C8_response_priority_amended.1 _ _ _ false, ?_⟩
  exact C8_response_priority_amended.2 none none (some ⟨2, [3]⟩) true ⟨2, [3]⟩ rfl

end BroadcastHub
